import Mathlib

set_option maxRecDepth 100000

/-!
Verification development for the recipe-parsing core of lucas-rami/down-to-cook.

The Rust sources under src/ are shallowly embedded below.  Strings are
modelled as lists of characters (`Str`); Rust byte indices computed by
`str::find` are only ever used to split the string at the found character,
which coincides with splitting the character list at the character's index.
Rust's `char::is_alphabetic` and `str::to_lowercase` are modelled on the
ASCII range (every token table of the program is ASCII).  `f32` values are
modelled by `F32`: the special values NaN and the two infinities are
explicit constructors and finite values carry their exact rational value;
Rust's `f32::from_str` (an external standard-library collaborator, like the
markdown AST library) is modelled by `parseF32`, which follows its
documented grammar and its documented overflow-to-infinity behaviour.
Rust panics are modelled by the `PanicOr` wrapper; `Result` is `Except`.
-/

namespace DownToCook

/-- Strings of the embedded program: lists of characters. -/
abbrev Str := List Char

instance [DecidableEq ε] [DecidableEq α] : DecidableEq (Except ε α)
  | .ok a, .ok b => decidable_of_iff (a = b) (by simp)
  | .ok _, .error _ => isFalse (by simp)
  | .error _, .ok _ => isFalse (by simp)
  | .error e, .error f => decidable_of_iff (e = f) (by simp)

/-- ASCII model of Rust `char::to_lowercase` / `str::to_lowercase`. -/
def asciiToLower (c : Char) : Char :=
  if c.isUpper then Char.ofNat (c.toNat + 32) else c

/-- Model of `str::to_lowercase`. -/
def toLowerStr (s : Str) : Str := s.map asciiToLower

/-- Model of `str::trim` (ASCII whitespace). -/
def trimChars (s : Str) : Str :=
  ((s.dropWhile Char.isWhitespace).reverse.dropWhile Char.isWhitespace).reverse

/-- Index of the first element satisfying `p`, as in Rust `str::find` /
`Iterator::find` over `enumerate`. -/
def findFirstIdx (p : α → Bool) : List α → Option Nat
  | [] => none
  | a :: t => if p a then some 0 else (findFirstIdx p t).map (· + 1)

/-- Model of Rust `str::split(sep)`: keeps empty pieces, yields one (empty)
piece on the empty string. -/
def splitOnChar (sep : Char) : Str → List Str
  | [] => [[]]
  | c :: rest =>
    match splitOnChar sep rest with
    | [] => [[c]]
    | s :: ss => if c = sep then [] :: s :: ss else (c :: s) :: ss

/-- Model of `str::contains(char)`. -/
def containsChar (c : Char) (s : Str) : Bool := s.contains c

/-- Model of `str::ends_with(char)`. -/
def endsWithChar (c : Char) (s : Str) : Bool := s.getLast? = some c

/-- Exact fractions `num / den` with (by construction) positive
denominators: the computation-friendly rational numbers of this
development.  They are kept unreduced; no definition below ever compares
two independently computed fractions for equality. -/
structure Frac where
  num : ℤ
  den : ℕ
deriving DecidableEq

/-- Fraction of a natural number. -/
def Frac.ofNat (n : ℕ) : Frac := ⟨n, 1⟩

/-- Negation of a fraction. -/
def Frac.neg (x : Frac) : Frac := ⟨-x.num, x.den⟩

/-- Product of fractions. -/
def Frac.mul (x y : Frac) : Frac := ⟨x.num * y.num, x.den * y.den⟩

/-- Difference of fractions. -/
def Frac.sub (x y : Frac) : Frac := ⟨x.num * y.den - y.num * x.den, x.den * y.den⟩

/-- Comparison of fractions (cross-multiplication; denominators are
positive by construction). -/
def Frac.ble (x y : Frac) : Bool := x.num * (y.den : ℤ) ≤ y.num * (x.den : ℤ)

/-- Rational value of a fraction. -/
def Frac.toRat (x : Frac) : ℚ := (x.num : ℚ) / (x.den : ℚ)

/-- Model of IEEE-754 binary32 values as the program observes them: finite
values carry their exact rational value (rounding of finite values is
irrelevant to every claim below), and NaN and the infinities are explicit. -/
inductive F32 where
  | finite (val : Frac)
  | inf
  | neginf
  | nan
deriving DecidableEq

/-- Error kind of Rust `core::num::ParseFloatError`: parsing the empty
string and parsing an invalid literal are the two distinct kinds. -/
inductive FloatErrKind where
  | empty
  | invalid
deriving DecidableEq

/-- Display string of `ParseFloatError`, as used by `format!` in the repo. -/
def floatErrMsg : FloatErrKind → String
  | .empty => "cannot parse float from empty string"
  | .invalid => "invalid float literal"

/-- Numeric value of a digit character. -/
def digitVal (c : Char) : ℕ := c.toNat - 48

/-- Value of a digit run. -/
def digitsVal (l : Str) : ℕ := l.foldl (fun acc c => 10 * acc + digitVal c) 0

/-- Smallest positive value at which Rust `f32` decimal parsing rounds to
infinity: the midpoint between the largest finite f32 and 2^128. -/
def f32OverflowThreshold : Frac := ⟨2 ^ 128 - 2 ^ 103, 1⟩

/-- Exponent suffix of the f32 grammar: `(e|E) sign? digit+`, or nothing. -/
def parseExpSuffix (rest : Str) (v : Frac) : Option Frac :=
  match rest with
  | [] => some v
  | e :: t =>
    if e = 'e' ∨ e = 'E' then
      let (eneg, t') := match t with
        | '+' :: t' => (false, t')
        | '-' :: t' => (true, t')
        | t' => (false, t')
      let ed := t'.takeWhile Char.isDigit
      let t'' := t'.dropWhile Char.isDigit
      if ed = [] ∨ t'' ≠ [] then none
      else some (if eneg then ⟨v.num, v.den * 10 ^ digitsVal ed⟩
                 else v.mul (Frac.ofNat (10 ^ digitsVal ed)))
    else none

/-- Decimal part of the f32 grammar: `digit+ | digit+ . digit* | . digit+`,
with optional exponent, evaluated exactly. -/
def parseDecimal (l : Str) : Option Frac :=
  let ip := l.takeWhile Char.isDigit
  let rest := l.dropWhile Char.isDigit
  match rest with
  | '.' :: rest' =>
    let fp := rest'.takeWhile Char.isDigit
    let rest'' := rest'.dropWhile Char.isDigit
    if ip = [] ∧ fp = [] then none
    else parseExpSuffix rest''
      ⟨digitsVal ip * 10 ^ fp.length + digitsVal fp, 10 ^ fp.length⟩
  | _ => if ip = [] then none else parseExpSuffix rest (Frac.ofNat (digitsVal ip))

/-- Strip one optional leading sign (the first step of the f32 grammar). -/
def stripSign (s : Str) : Bool × Str :=
  match s with
  | c :: t => if c = '+' then (false, t) else if c = '-' then (true, t) else (false, c :: t)
  | [] => (false, [])

/-- Model of Rust `f32::from_str` (external standard-library collaborator):
optional sign, then a case-insensitive special (`inf`, `infinity`, `nan`)
or a decimal literal with optional exponent; a decimal value of magnitude
at least `f32OverflowThreshold` rounds to the corresponding infinity. -/
def parseF32 (s : Str) : Except FloatErrKind F32 :=
  if s = [] then .error .empty
  else if toLowerStr (stripSign s).2 = "inf".data
      ∨ toLowerStr (stripSign s).2 = "infinity".data then
    .ok (if (stripSign s).1 then .neginf else .inf)
  else if toLowerStr (stripSign s).2 = "nan".data then .ok .nan
  else
    match parseDecimal (stripSign s).2 with
    | none => .error .invalid
    | some v =>
      if f32OverflowThreshold.ble (if (stripSign s).1 then v.neg else v) then .ok .inf
      else if (if (stripSign s).1 then v.neg else v).ble f32OverflowThreshold.neg then
        .ok .neginf
      else .ok (.finite (if (stripSign s).1 then v.neg else v))

/-! Embedding of src/recipe/unit.rs. -/

/-- Unit family `Nominal` (unit.rs): the unit of unitless quantities. -/
inductive Nominal where
  | mk
deriving DecidableEq

/-- Embeds `FromStr for Nominal` (unit.rs:88-98): only the empty token. -/
def Nominal.from_str (s : Str) : Option Nominal :=
  if s = [] then some .mk else none

/-- Unit family `Mass` (unit.rs). -/
inductive Mass where
  | Gram
  | Kilogram
  | Ounce
  | Pound
deriving DecidableEq

/-- Embeds `FromStr for Mass` (unit.rs:110-122). -/
def Mass.from_str (s : Str) : Option Mass :=
  match toLowerStr s with
  | ['g'] => some .Gram
  | ['k', 'g'] => some .Kilogram
  | ['o', 'z'] => some .Ounce
  | ['l', 'b', 's'] => some .Pound
  | _ => none

/-- Unit family `Volume` (unit.rs). -/
inductive Volume where
  | Milliliter
  | Centiliter
  | Liter
  | Teaspoon
  | Tablespoon
  | FluidOunce
  | Cup
  | Gallon
deriving DecidableEq

/-- Embeds `FromStr for Volume` (unit.rs:146-162). -/
def Volume.from_str (s : Str) : Option Volume :=
  match toLowerStr s with
  | ['m', 'l'] => some .Milliliter
  | ['c', 'l'] => some .Centiliter
  | ['l'] => some .Liter
  | ['t', 's', 'p'] => some .Teaspoon
  | ['t', 'b', 's', 'p'] => some .Tablespoon
  | ['f', 'l', ' ', 'o', 'z'] => some .FluidOunce
  | ['f', 'l', '.', ' ', 'o', 'z', '.'] => some .FluidOunce
  | ['c', 'u', 'p'] => some .Cup
  | ['g', 'a', 'l'] => some .Gallon
  | _ => none

/-- Unit family `Distance` (unit.rs). -/
inductive Distance where
  | Millimeter
  | Centimeter
  | Inches
deriving DecidableEq

/-- Embeds `FromStr for Distance` (unit.rs:185-196). -/
def Distance.from_str (s : Str) : Option Distance :=
  match toLowerStr s with
  | ['m', 'm'] => some .Millimeter
  | ['c', 'm'] => some .Centimeter
  | ['i', 'n'] => some .Inches
  | _ => none

/-- Unit family `Temperature` (unit.rs). -/
inductive Temperature where
  | Celsius
  | Farenheit
deriving DecidableEq

/-- Embeds `FromStr for Temperature` (unit.rs:213-223). -/
def Temperature.from_str (s : Str) : Option Temperature :=
  match toLowerStr s with
  | ['°', 'c'] => some .Celsius
  | ['c'] => some .Celsius
  | ['°', 'f'] => some .Farenheit
  | ['f'] => some .Farenheit
  | _ => none

/-- Unit family `Time` (unit.rs). -/
inductive Time where
  | Second
  | Minute
  | Hour
deriving DecidableEq

/-- Embeds `FromStr for Time` (unit.rs:241-252). -/
def Time.from_str (s : Str) : Option Time :=
  match toLowerStr s with
  | ['s'] => some .Second
  | ['s', 'e', 'c'] => some .Second
  | ['s', 'e', 'c', '.'] => some .Second
  | ['s', 'e', 'c', 'o', 'n', 'd'] => some .Second
  | ['s', 'e', 'c', 'o', 'n', 'd', 's'] => some .Second
  | ['m', 'i', 'n'] => some .Minute
  | ['m', 'i', 'n', '.'] => some .Minute
  | ['m', 'i', 'n', 'u', 't', 'e'] => some .Minute
  | ['m', 'i', 'n', 'u', 't', 'e', 's'] => some .Minute
  | ['h'] => some .Hour
  | ['h', 'o', 'u', 'r'] => some .Hour
  | ['h', 'o', 'u', 'r', 's'] => some .Hour
  | _ => none

/-- The closed unit taxonomy `Unit` (unit.rs:3-12) with the `Custom` escape
hatch. -/
inductive Unit where
  | Nominal (unit : Nominal)
  | Mass (unit : Mass)
  | Volume (unit : Volume)
  | Distance (unit : Distance)
  | Temperature (unit : Temperature)
  | Time (unit : Time)
  | Custom (s : Str)
deriving DecidableEq

/-- Embeds `FromStr for Unit` (unit.rs:14-34): families tried in a fixed
priority order. -/
def Unit.from_str (s : Str) : Option Unit :=
  match Nominal.from_str s with
  | some u => some (.Nominal u)
  | none =>
    match Mass.from_str s with
    | some u => some (.Mass u)
    | none =>
      match Volume.from_str s with
      | some u => some (.Volume u)
      | none =>
        match Distance.from_str s with
        | some u => some (.Distance u)
        | none =>
          match Temperature.from_str s with
          | some u => some (.Temperature u)
          | none =>
            match Time.from_str s with
            | some u => some (.Time u)
            | none => none

/-- Embeds `From<&str> for Unit` (unit.rs:70-77), the total decoder: falls
back to `Custom` on the original token. -/
def Unit.decode (s : Str) : Unit :=
  match Unit.from_str s with
  | some u => u
  | none => .Custom s

/-- Conversion closures `FnUnit = fn(f32) -> f32` (unit.rs:36). -/
abbrev FnUnit := F32 → F32

/-- Model of `|q| q * k` on f32 for a positive constant `k`: infinities
keep their sign and NaN propagates, as in IEEE-754. -/
def F32.mulConst (k : Frac) : F32 → F32
  | .finite v => .finite (v.mul k)
  | x => x

/-- Model of `|f| (f - 32.) * 5. / 9.` on f32: this positive-slope affine
map fixes the infinities and propagates NaN, as in IEEE-754. -/
def F32.fahrenheitToCelsius : F32 → F32
  | .finite v => .finite ((v.sub ⟨32, 1⟩).mul ⟨5, 9⟩)
  | x => x

/-- Embeds `UnitTrait::sanitize` for `Mass` (unit.rs:124-132). -/
def Mass.sanitize : Mass → Mass × FnUnit
  | .Ounce => (.Gram, F32.mulConst ⟨28, 1⟩)
  | .Pound => (.Gram, F32.mulConst ⟨450, 1⟩)
  | u => (u, fun q => q)

/-- Embeds `UnitTrait::sanitize` for `Volume` (unit.rs:164-176). -/
def Volume.sanitize : Volume → Volume × FnUnit
  | .Teaspoon => (.Milliliter, F32.mulConst ⟨5, 1⟩)
  | .Tablespoon => (.Milliliter, F32.mulConst ⟨15, 1⟩)
  | .Cup => (.Milliliter, F32.mulConst ⟨240, 1⟩)
  | .FluidOunce => (.Milliliter, F32.mulConst ⟨29, 1⟩)
  | .Gallon => (.Liter, F32.mulConst ⟨3785, 1000⟩)
  | u => (u, fun q => q)

/-- Embeds `UnitTrait::sanitize` for `Distance` (unit.rs:198-205). -/
def Distance.sanitize : Distance → Distance × FnUnit
  | .Inches => (.Centimeter, F32.mulConst ⟨25, 10⟩)
  | u => (u, fun q => q)

/-- Embeds `UnitTrait::sanitize` for `Temperature` (unit.rs:225-232). -/
def Temperature.sanitize : Temperature → Temperature × FnUnit
  | .Farenheit => (.Celsius, F32.fahrenheitToCelsius)
  | u => (u, fun q => q)

/-- Embeds the default `UnitTrait::sanitize` used by `Nominal` (unit.rs:80-83). -/
def Nominal.sanitize : Nominal → Nominal × FnUnit
  | u => (u, fun q => q)

/-- Embeds the default `UnitTrait::sanitize` used by `Time` (unit.rs:80-83,254). -/
def Time.sanitize : Time → Time × FnUnit
  | u => (u, fun q => q)

/-- Embeds `Unit::sanitize` (unit.rs:38-68). -/
def Unit.sanitize : Unit → Unit × FnUnit
  | .Nominal u => ((.Nominal (u.sanitize).1 : Unit), (u.sanitize).2)
  | .Mass u => ((.Mass (u.sanitize).1 : Unit), (u.sanitize).2)
  | .Volume u => ((.Volume (u.sanitize).1 : Unit), (u.sanitize).2)
  | .Distance u => ((.Distance (u.sanitize).1 : Unit), (u.sanitize).2)
  | .Temperature u => ((.Temperature (u.sanitize).1 : Unit), (u.sanitize).2)
  | .Time u => ((.Time (u.sanitize).1 : Unit), (u.sanitize).2)
  | .Custom s => (.Custom s, fun q => q)

/-- A unit is base when `sanitize` keeps it unchanged (spec 4.1: "already
base" units). -/
def Unit.is_base (u : Unit) : Bool := (u.sanitize).1 = u

/-- The splitting predicate `f_split_quantity` (unit.rs:256-258): first
alphabetic-or-degree character starts the unit token. -/
def fSplitQuantity (c : Char) : Bool := c.isAlpha ∨ c = '°'

/-- A `(unit, amount)` pair, `Quantity` (unit.rs:260-264). -/
structure Quantity where
  unit : Unit
  amount : F32
deriving DecidableEq

/-- Embeds `Quantity::sanitize` (unit.rs:274-280). -/
def Quantity.sanitize (q : Quantity) : Quantity :=
  { unit := (q.unit.sanitize).1, amount := (q.unit.sanitize).2 q.amount }

/-- Embeds `FromStr for Quantity` (unit.rs:283-301). -/
def Quantity.from_str (s : Str) : Except FloatErrKind Quantity :=
  match findFirstIdx fSplitQuantity s with
  | some idx =>
    match parseF32 (trimChars (s.take idx)) with
    | .error e => .error e
    | .ok amount => .ok { unit := Unit.decode (trimChars (s.drop idx)), amount }
  | none =>
    match parseF32 (trimChars s) with
    | .error e => .error e
    | .ok amount => .ok { unit := .Nominal .mk, amount }

/-- The unit component `Quantity::from_str` assigns: the decoded trimmed
unit segment when a split point exists, `Nominal` otherwise
(unit.rs:287-299). -/
def quantityUnitOf (s : Str) : Unit :=
  match findFirstIdx fSplitQuantity s with
  | some idx => Unit.decode (trimChars (s.drop idx))
  | none => .Nominal .mk

/-- Embeds `ParseQuantityOfError` (unit.rs:323-327): the two distinguishable
failure kinds of family-restricted quantity parsing. -/
inductive ParseQuantityOfError where
  | InvalidUnit (s : Str)
  | InvalidAmount (s : Str) (e : FloatErrKind)
deriving DecidableEq

/-- A quantity restricted to one unit family, `QuantityOf<T>` (unit.rs:342-346). -/
structure QuantityOf (τ : Type) where
  unit : τ
  amount : F32
deriving DecidableEq

/-- The amount segment of the quantity grammar: everything before the first
alphabetic-or-degree character (the whole string when there is none),
trimmed (unit.rs:368-370). -/
def amountToken (s : Str) : Str :=
  trimChars (s.take ((findFirstIdx fSplitQuantity s).getD s.length))

/-- The unit segment of the quantity grammar: everything from the first
alphabetic-or-degree character on (empty when there is none), trimmed
(unit.rs:368-371). -/
def unitToken (s : Str) : Str :=
  trimChars (s.drop ((findFirstIdx fSplitQuantity s).getD s.length))

/-- Embeds `FromStr for QuantityOf<T>` (unit.rs:361-380), parameterised by
the family's `from_str`; the unit token is validated before the amount. -/
def QuantityOf.from_str (fromStrT : Str → Option τ) (s : Str) :
    Except ParseQuantityOfError (QuantityOf τ) :=
  match fromStrT (unitToken s) with
  | none => .error (.InvalidUnit (unitToken s))
  | some u =>
    match parseF32 (amountToken s) with
    | .error e => .error (.InvalidAmount (amountToken s) e)
    | .ok a => .ok { unit := u, amount := a }

/-! Embedding of the markdown AST node type consumed from the external
`markdown` crate, restricted to the node kinds the recipe dialect uses;
`thematicBreak` stands for the childless block kinds outside the dialect. -/

/-- Markdown AST nodes (`markdown::mdast::Node`), external collaborator. -/
inductive Node where
  | root (children : List Node)
  | heading (depth : Nat) (children : List Node)
  | text (value : Str)
  | paragraph (children : List Node)
  | list (children : List Node)
  | listItem (children : List Node)
  | emphasis (children : List Node)
  | strong (children : List Node)
  | yaml (value : Str)
  | thematicBreak

/-- Model of `Node::children`: `Some` exactly for the node kinds that
support children. -/
def Node.children : Node → Option (List Node)
  | .root cs => some cs
  | .heading _ cs => some cs
  | .paragraph cs => some cs
  | .list cs => some cs
  | .listItem cs => some cs
  | .emphasis cs => some cs
  | .strong cs => some cs
  | .text _ => none
  | .yaml _ => none
  | .thematicBreak => none

/-! Embedding of src/recipe/md_parser.rs. -/

/-- Embeds `MDError` (md_parser.rs:13-29): a message and the optional
offending node (standing for that node's source position). -/
structure MDError where
  msg : String
  place : Option Node

/-- Embeds `MDError::new`. -/
def MDError.new (msg : String) (node : Option Node) : MDError :=
  { msg := msg, place := node }

/-- Result type `MDResult` of the repo. -/
abbrev MDResult (α : Type) := Except MDError α

/-- Outcome of Rust code that can panic: either an unrecoverable panic or a
returned value. -/
inductive PanicOr (α : Type) where
  | panic (msg : String)
  | value (val : α)

/-- Result of fallible Rust code that can also panic. -/
abbrev PE (α : Type) := PanicOr (MDResult α)

/-- Bind for panicking fallible computations: panics and errors propagate. -/
def pbind (x : PE α) (f : α → PE β) : PE β :=
  match x with
  | .panic m => .panic m
  | .value (.error e) => .value (.error e)
  | .value (.ok a) => f a

/-- Success injection into `PE`. -/
def pok (a : α) : PE α := .value (.ok a)

/-- Error injection into `PE`. -/
def perr (e : MDError) : PE α := .value (.error e)

/-- Lift a non-panicking result into `PE`. -/
def liftE (x : MDResult α) : PE α := .value x

/-- Embeds `expect_children` (md_parser.rs:107-121): `children().expect(..)`
panics when the node does not support children; otherwise an exact
child-count check, failing with an error value naming the node. -/
def expect_children (node : Node) (num : Nat) : PE PUnit :=
  match node.children with
  | none => .panic "node cannot have children"
  | some children =>
    if children.length ≠ num then
      perr (MDError.new
        ("expected node to have " ++ toString num ++ " children, but got "
          ++ toString children.length) (some node))
    else pok .unit

/-- Embeds `get_heading` (md_parser.rs:123-165). -/
def get_heading (node : Node) (depth : Nat) (name : Option Str) : PE Str :=
  match node with
  | .heading d children =>
    if d ≠ depth then
      perr (MDError.new
        ("expected heading at depth " ++ toString depth ++ ", but got " ++ toString d)
        (some node))
    else
      pbind (expect_children node 1) fun _ =>
        match children with
        | .text value :: _ =>
          match name with
          | some requested_name =>
            if value ≠ requested_name then
              perr (MDError.new
                ("expected heading \"" ++ String.mk requested_name
                  ++ "\", but got \"" ++ String.mk value ++ "\"")
                (some (.text value)))
            else pok value
          | none => pok value
        | _ :: _ =>
          perr (MDError.new "expected heading to have text child" (some node))
        | [] => .panic "index out of bounds"
  | _ => perr (MDError.new "expected first node to be heading" (some node))

/-- Embeds `get_text_from_paragraph` (md_parser.rs:167-182). -/
def get_text_from_paragraph (node : Node) : PE Str :=
  match node with
  | .paragraph children =>
    pbind (expect_children node 1) fun _ =>
      match children with
      | .text value :: _ => pok value
      | other :: _ => perr (MDError.new "expected child to to be text" (some other))
      | [] => .panic "index out of bounds"
  | _ => perr (MDError.new "expected paragraph" (some node))

/-- The AST cursor `ASTConsumer` (md_parser.rs:58-66): a forward index into
an immutable node sequence. -/
structure ASTConsumer where
  idx : Nat
  nodes : List Node

/-- Embeds `ASTConsumer::new`. -/
def ASTConsumer.new (nodes : List Node) : ASTConsumer := { idx := 0, nodes }

/-- Is this node a heading of the given depth? (the predicate inside
`consume_to_next_heading`). -/
def isHeadingAtDepth (depth : Nat) : Node → Bool
  | .heading d _ => d = depth
  | _ => false

/-- Embeds `ASTConsumer::consume_next` (md_parser.rs:68-76): EOF error at
the end, otherwise the node under the cursor (indexing past the end would
panic). -/
def ASTConsumer.consume_next (c : ASTConsumer) : PE (Node × ASTConsumer) :=
  if c.idx = c.nodes.length then perr (MDError.new "EOF" none)
  else
    match (c.nodes.drop c.idx).head? with
    | some node => pok (node, { c with idx := c.idx + 1 })
    | none => .panic "index out of bounds"

/-- Embeds `ASTConsumer::consume_to_next_heading` (md_parser.rs:78-96):
returns the slice from the cursor up to (excluding) the first heading of
the given depth, consuming it. -/
def ASTConsumer.consume_to_next_heading (c : ASTConsumer) (depth : Nat) :
    List Node × ASTConsumer :=
  if c.idx = c.nodes.length then ([], c)
  else
    match findFirstIdx (isHeadingAtDepth depth) (c.nodes.drop c.idx) with
    | some k => ((c.nodes.drop c.idx).take k, { c with idx := c.idx + k })
    | none => (c.nodes.drop c.idx, { c with idx := c.nodes.length })

/-! Embedding of src/recipe/instructions.rs (inline element grammar). -/

/-- Embeds `TextElem` (instructions.rs:81-86). -/
inductive TextElem where
  | Text (s : Str)
  | IngredientRef (s : Str)
  | Timer (q : QuantityOf Time)
deriving DecidableEq

/-- Embeds `TextElem::from_node` (instructions.rs:89-122). -/
def TextElem.from_node (node : Node) : MDResult TextElem :=
  match node with
  | .text value => .ok (.Text value)
  | .emphasis children =>
    match children with
    | [] => .ok (.IngredientRef [])
    | [.text value] => .ok (.IngredientRef value)
    | [other] =>
      .error (MDError.new "expected ingrdient ref to be text" (some other))
    | _ => .error (MDError.new "expected single children" (some node))
  | .strong children =>
    match children with
    | [] => .ok (.IngredientRef [])
    | [.text value] =>
      match QuantityOf.from_str Time.from_str value with
      | .ok quantity => .ok (.Timer quantity)
      | .error _ =>
        .error (MDError.new
          ("expected time information but got \"" ++ String.mk value ++ "\"")
          (some (.text value)))
    | [other] =>
      .error (MDError.new "expected ingrdient ref to be text" (some other))
    | _ => .error (MDError.new "expected single children" (some node))
  | _ => .error (MDError.new "unsupported element in step" (some node))

/-! Embedding of src/recipe/ingredients.rs (ingredient micro-grammar,
richer dialect). -/

/-- Embeds `Ingredient` (ingredients.rs:66-72). -/
structure Ingredient where
  name : Str
  quantity : Option Quantity
  alt_quantities : Option (List Quantity)
  info : Option Str
deriving DecidableEq

/-- `INFO_FORBIDDEN_CHARS` (ingredients.rs:74). -/
def INFO_FORBIDDEN_CHARS : List Char := ['|', '(', ')']

/-- `FORBIDDEN_CHARS` (ingredients.rs:75). -/
def FORBIDDEN_CHARS : List Char := [',', '|', '/', '(', ')']

/-- The quantity-alternatives loop of `Ingredient::from_str`
(ingredients.rs:109-125): enumerated segments, first into `quantity`,
later ones appended to `alt_quantities`; `unwrap` on a `None` accumulator
would panic. -/
def quantLoop : Nat → Option Quantity → Option (List Quantity) → List Str →
    PE (Option Quantity × Option (List Quantity))
  | _, quantity, alts, [] => pok (quantity, alts)
  | i, quantity, alts, s :: rest =>
    if FORBIDDEN_CHARS.any (fun c => containsChar c s) then
      perr (MDError.new
        ("quantity contains forbidden character: " ++ String.mk s) none)
    else
      match Quantity.from_str (trimChars s) with
      | .error e =>
        perr (MDError.new ("failed to parse quantity: " ++ floatErrMsg e) none)
      | .ok quant =>
        if i = 0 then quantLoop (i + 1) (some quant) alts rest
        else if i = 1 then quantLoop (i + 1) quantity (some [quant]) rest
        else
          match alts with
          | some l => quantLoop (i + 1) quantity (some (l ++ [quant])) rest
          | none => .panic "called Option::unwrap on a None value"

/-- The parenthetical-info extraction step of `Ingredient::from_str`
(ingredients.rs:81-94): when the trimmed text ends with a closing
parenthesis, the enclosed trimmed substring (from the first opening
parenthesis) becomes the info and is removed from the working text. -/
def infoStep (text : Str) : MDResult (Option Str × Str) :=
  if endsWithChar ')' text then
    match findFirstIdx (· = '(') text with
    | none => .error (MDError.new "found closing parenthesis but no opening" none)
    | some idx => .ok (some (trimChars ((text.drop (idx + 1)).dropLast)), text.take idx)
  else .ok (none, text)

/-- The info validation step of `Ingredient::from_str`
(ingredients.rs:95-102). -/
def infoCheck (info : Option Str) : MDResult PUnit :=
  match info with
  | some info_text =>
    if INFO_FORBIDDEN_CHARS.any (fun c => containsChar c info_text) then
      .error (MDError.new
        ("additiona info contains forbidden character: " ++ String.mk info_text)
        none)
    else .ok .unit
  | none => .ok .unit

/-- The quantity step of `Ingredient::from_str` (ingredients.rs:104-127):
when the working text contains a comma, everything after the first comma is
split on `/` and run through the quantity loop, and the working text shrinks
to everything before the comma. -/
def quantStep (text : Str) : PE (Option Quantity × Option (List Quantity) × Str) :=
  match findFirstIdx (· = ',') text with
  | some idx =>
    pbind (quantLoop 0 none none (splitOnChar '/' (text.drop (idx + 1))))
      fun (quantity, alts) => pok (quantity, alts, text.take idx)
  | none => pok (none, none, text)

/-- Embeds `Ingredient::from_str` (ingredients.rs:77-146). -/
def Ingredient.from_str (text : Str) : PE Ingredient :=
  match infoStep (trimChars text) with
  | .error e => perr e
  | .ok (info, text2) =>
    match infoCheck info with
    | .error e => perr e
    | .ok _ =>
      pbind (quantStep text2) fun (quantity, alt_quantities, text3) =>
        if trimChars text3 = [] then
          perr (MDError.new ("name cannot be empty: " ++ String.mk (trimChars text3)) none)
        else if FORBIDDEN_CHARS.any (fun c => containsChar c (trimChars text3)) then
          perr (MDError.new "name contains forbidden character" none)
        else pok { name := trimChars text3, quantity, alt_quantities, info }

/-- Declarative per-segment quantity parse, following the claim's (and the
spec's) description of one `/`-separated alternative: the segment must be
free of the forbidden characters and parse as a `Quantity`; stated for
comparison with the source-translated loop `quantLoop`. -/
def quantitySegSpec (s : Str) : MDResult Quantity :=
  if FORBIDDEN_CHARS.any (fun c => containsChar c s) then
    .error (MDError.new ("quantity contains forbidden character: " ++ String.mk s) none)
  else
    match Quantity.from_str (trimChars s) with
    | .error e =>
      .error (MDError.new ("failed to parse quantity: " ++ floatErrMsg e) none)
    | .ok q => .ok q

/-- Declarative parse of all `/`-separated quantity segments in order,
first failure wins; stated for comparison with `quantLoop`. -/
def quantitySegsSpec : List Str → MDResult (List Quantity)
  | [] => .ok []
  | s :: rest =>
    match quantitySegSpec s with
    | .error e => .error e
    | .ok q =>
      match quantitySegsSpec rest with
      | .error e => .error e
      | .ok qs => .ok (q :: qs)

/-! Embedding of src/recipe.rs, the earlier dialect of the document
grammar (its own flat `Unit`, comma-separated leftover attributes, and a
"Steps" section).  It reuses the grammar helpers of md_parser.rs. -/

namespace legacy

/-- Embeds the flat `Unit` of recipe.rs (recipe.rs:123-148). -/
inductive Unit where
  | Gram
  | Kilogram
  | Ounce
  | Pound
  | Milliliter
  | Centiliter
  | Liter
  | Teaspoon
  | Tablespoon
  | FluidOunce
  | Cup
  | Gallon
  | Millimeter
  | Centimeter
  | Inches
  | Celsius
  | Farenheit
  | Custom (s : Str)
deriving DecidableEq

/-- Embeds `Unit::decode` (recipe.rs:151-172); note `gal` maps to `Liter`
in this revision. -/
def Unit.decode (text : Str) : Unit :=
  match toLowerStr text with
  | ['g'] => .Gram
  | ['k', 'g'] => .Kilogram
  | ['o', 'z'] => .Ounce
  | ['l', 'b', 's'] => .Pound
  | ['m', 'l'] => .Milliliter
  | ['c', 'l'] => .Centiliter
  | ['l'] => .Liter
  | ['t', 's', 'p'] => .Teaspoon
  | ['t', 'b', 's', 'p'] => .Tablespoon
  | ['f', 'l', ' ', 'o', 'z'] => .FluidOunce
  | ['f', 'l', '.', ' ', 'o', 'z', '.'] => .FluidOunce
  | ['c', 'u', 'p'] => .Cup
  | ['g', 'a', 'l'] => .Liter
  | ['°', 'c'] => .Celsius
  | ['°', 'f'] => .Farenheit
  | ['m', 'm'] => .Millimeter
  | ['c', 'm'] => .Centimeter
  | ['i', 'n'] => .Inches
  | _ => .Custom text

/-- Embeds the `Ingredient` of recipe.rs (recipe.rs:77-83). -/
structure Ingredient where
  name : Str
  quantity : F32
  unit : Option Unit
  attributes : List Str
deriving DecidableEq

/-- Embeds `Ingredient::from_str` (recipe.rs:95-120). -/
def Ingredient.from_str (text : Str) : MDResult Ingredient :=
  let components := (splitOnChar ',' text).map trimChars
  match components with
  | c0 :: c1 :: rest =>
    let parsed : Except FloatErrKind (F32 × Option Unit) :=
      match findFirstIdx Char.isAlpha c1 with
      | some idx =>
        match parseF32 (trimChars (c1.take idx)) with
        | .error e => .error e
        | .ok q => .ok (q, some (Unit.decode (trimChars (c1.drop idx))))
      | none =>
        match parseF32 c1 with
        | .error e => .error e
        | .ok q => .ok (q, none)
    match parsed with
    | .error e => .error (MDError.new (floatErrMsg e) none)
    | .ok (quantity, unit) =>
      .ok { name := c0, quantity, unit, attributes := rest }
  | _ =>
    .error (MDError.new
      "ingredient must be formatted as <name>, <quantity> [, <leftover>]*" none)

/-- Embeds the `IngredientList` of recipe.rs (recipe.rs:35-37). -/
structure IngredientList where
  ingredients : List Ingredient
deriving DecidableEq

/-- The per-item closure inside `IngredientList::from_mdast`
(recipe.rs:58-68). -/
def ingredientOfItem (n : Node) : PE Ingredient :=
  match n with
  | .listItem children =>
    pbind (expect_children (.listItem children) 1) fun _ =>
      match children with
      | first :: _ =>
        pbind (get_text_from_paragraph first) fun text =>
          liftE (Ingredient.from_str text)
      | [] => .panic "index out of bounds"
  | _ => perr (MDError.new "expected list item" (some n))

/-- Collecting the mapped items (`collect::<Result<Vec<_>, _>>`). -/
def ingredientsOfItems : List Node → PE (List Ingredient)
  | [] => pok []
  | n :: rest =>
    pbind (ingredientOfItem n) fun i =>
      pbind (ingredientsOfItems rest) fun is => pok (i :: is)

/-- Embeds `IngredientList::from_mdast` (recipe.rs:40-74). -/
def IngredientList.from_mdast (nodes : List Node) : PE IngredientList :=
  match nodes with
  | [] => pok { ingredients := [] }
  | [node] =>
    match node with
    | .list children =>
      pbind (ingredientsOfItems children) fun ingredients => pok { ingredients }
    | _ => perr (MDError.new "ingredients must be list" (some node))
  | _ => perr (MDError.new "expect single list node for ingredients" none)

/-- Embeds the placeholder `Steps` of recipe.rs (recipe.rs:192). -/
structure Steps where
deriving DecidableEq

/-- Embeds `Steps::from_mdast` (recipe.rs:194-198): accepts anything. -/
def Steps.from_mdast (_nodes : List Node) : MDResult Steps := .ok {}

/-- Embeds the `Recipe` of recipe.rs (recipe.rs:7-11). -/
structure Recipe where
  name : Str
  ingredients : IngredientList
  steps : Steps

/-- Embeds `Recipe::from_mdast` (recipe.rs:13-33) from the point where the
external markdown library has produced the document's root node. -/
def Recipe.from_mdast (md : Node) : PE Recipe :=
  match md.children with
  | none => perr (MDError.new "empty file" none)
  | some children =>
    let c0 := ASTConsumer.new children
    pbind c0.consume_next fun (n1, c1) =>
    pbind (get_heading n1 1 none) fun name =>
    pbind c1.consume_next fun (n2, c2) =>
    pbind (get_heading n2 2 (some "Ingredients".data)) fun _ =>
    let (ingNodes, c3) := c2.consume_to_next_heading 2
    pbind (IngredientList.from_mdast ingNodes) fun ingredients =>
    pbind c3.consume_next fun (n4, c4) =>
    pbind (get_heading n4 2 (some "Steps".data)) fun _ =>
    let (stepNodes, _c5) := c4.consume_to_next_heading 2
    pbind (liftE (Steps.from_mdast stepNodes)) fun steps =>
    pok { name, ingredients, steps }

end legacy

/-! General-purpose lemmas about the string model. -/

theorem mem_of_mem_dropWhile (p : α → Bool) :
    ∀ (l : List α) (a : α), a ∈ l.dropWhile p → a ∈ l := by
  intro l
  induction l with
  | nil => intro a h; exact h
  | cons x xs ih =>
    intro a h
    by_cases hx : p x
    · rw [List.dropWhile_cons, if_pos hx] at h
      exact List.mem_cons_of_mem _ (ih a h)
    · rw [List.dropWhile_cons, if_neg hx] at h
      exact h

theorem mem_of_mem_trimChars {s : Str} {a : Char} (h : a ∈ trimChars s) : a ∈ s := by
  unfold trimChars at h
  rw [List.mem_reverse] at h
  have h1 := mem_of_mem_dropWhile _ _ _ h
  rw [List.mem_reverse] at h1
  exact mem_of_mem_dropWhile _ _ _ h1

theorem map_self_of_fix {f : α → α} :
    ∀ {l : List α}, (∀ a ∈ l, f a = a) → l.map f = l := by
  intro l
  induction l with
  | nil => intro _; rfl
  | cons x xs ih =>
    intro h
    simp only [List.map_cons]
    rw [h x (List.mem_cons_self x xs), ih fun a ha => h a (List.mem_cons_of_mem _ ha)]

theorem mem_stripSign_snd {s : Str} {a : Char} (h : a ∈ (stripSign s).2) : a ∈ s := by
  rcases s with _ | ⟨c, t⟩
  · simp [stripSign] at h
  · simp only [stripSign] at h
    by_cases h1 : c = '+'
    · rw [if_pos h1] at h
      exact List.mem_cons_of_mem _ h
    · rw [if_neg h1] at h
      by_cases h2 : c = '-'
      · rw [if_pos h2] at h
        exact List.mem_cons_of_mem _ h
      · rwa [if_neg h2] at h

theorem asciiToLower_of_not_alpha {c : Char} (h : c.isAlpha = false) :
    asciiToLower c = c := by
  unfold asciiToLower
  rw [if_neg]
  simp only [Char.isAlpha, Bool.or_eq_false_iff] at h
  simp [h.1]

theorem findFirstIdx_eq_none (p : α → Bool) :
    ∀ (l : List α), findFirstIdx p l = none → ∀ a ∈ l, p a = false := by
  intro l
  induction l with
  | nil => intro _ a ha; cases ha
  | cons x xs ih =>
    intro h a ha
    unfold findFirstIdx at h
    by_cases hx : p x
    · rw [if_pos hx] at h; cases h
    · rw [if_neg hx] at h
      rcases List.mem_cons.mp ha with rfl | hmem
      · simpa using hx
      · refine ih ?_ a hmem
        cases hfi : findFirstIdx p xs with
        | none => rfl
        | some k => rw [hfi] at h; cases h

theorem findFirstIdx_eq_some (p : α → Bool) :
    ∀ (l : List α) (k : ℕ), findFirstIdx p l = some k →
      (∀ a ∈ l.take k, p a = false) ∧ ∃ a t, l.drop k = a :: t ∧ p a = true := by
  intro l
  induction l with
  | nil => intro k h; cases h
  | cons x xs ih =>
    intro k h
    unfold findFirstIdx at h
    by_cases hx : p x
    · rw [if_pos hx] at h
      obtain rfl : (0 : ℕ) = k := by cases h; rfl
      refine ⟨?_, x, xs, rfl, hx⟩
      intro a ha
      simp at ha
    · rw [if_neg hx] at h
      cases hfi : findFirstIdx p xs with
      | none => rw [hfi] at h; cases h
      | some k' =>
        rw [hfi] at h
        simp only [Option.map_some'] at h
        obtain rfl : k' + 1 = k := by cases h; rfl
        obtain ⟨htake, a, t, hdrop, hp⟩ := ih k' hfi
        refine ⟨?_, a, t, by simpa using hdrop, hp⟩
        intro b hb
        rw [List.take_succ_cons] at hb
        rcases List.mem_cons.mp hb with rfl | hmem
        · simpa using hx
        · exact htake b hmem

theorem findFirstIdx_append_cons (p : α → Bool) :
    ∀ (pre : List α) (x : α) (rest : List α), (∀ a ∈ pre, p a = false) → p x = true →
      findFirstIdx p (pre ++ x :: rest) = some pre.length := by
  intro pre
  induction pre with
  | nil => intro x rest _ hx; simp [findFirstIdx, hx]
  | cons y ys ih =>
    intro x rest hpre hx
    have hy : p y = false := hpre y (List.mem_cons_self y ys)
    rw [List.cons_append]
    unfold findFirstIdx
    rw [if_neg (by simp [hy]), ih x rest (fun a ha => hpre a (List.mem_cons_of_mem _ ha)) hx]
    rfl

theorem take_length_append (l₁ l₂ : List α) : (l₁ ++ l₂).take l₁.length = l₁ := by
  induction l₁ with
  | nil => rfl
  | cons x xs ih => simp [ih]

theorem drop_length_append_cons (pre : List α) (x : α) (rest : List α) :
    (pre ++ x :: rest).drop (pre.length + 1) = rest := by
  induction pre with
  | nil => rfl
  | cons y ys ih => simp only [List.cons_append, List.length_cons, List.drop_succ_cons, ih]

/-! Lemmas about the f32 model. -/

theorem parseF32_ne_ok_nan {s : Str} (h : ∀ c ∈ s, c.isAlpha = false) :
    parseF32 s ≠ .ok .nan := by
  unfold parseF32
  by_cases hs : s = []
  · simp [hs]
  · rw [if_neg hs]
    have hrmem : ∀ c ∈ (stripSign s).2, c.isAlpha = false :=
      fun c hc => h c (mem_stripSign_snd hc)
    by_cases hinf : toLowerStr (stripSign s).2 = "inf".data
        ∨ toLowerStr (stripSign s).2 = "infinity".data
    · rw [if_pos hinf]
      cases (stripSign s).1 <;> simp
    · rw [if_neg hinf]
      by_cases hnan : toLowerStr (stripSign s).2 = "nan".data
      · exfalso
        have hfix : ((stripSign s).2).map asciiToLower = (stripSign s).2 :=
          map_self_of_fix fun a ha => asciiToLower_of_not_alpha (hrmem a ha)
        unfold toLowerStr at hnan
        rw [hfix] at hnan
        have hn : 'n' ∈ (stripSign s).2 := by rw [hnan]; simp
        have := hrmem 'n' hn
        simp at this
      · rw [if_neg hnan]
        cases hd : parseDecimal (stripSign s).2 with
        | none => simp
        | some v =>
          cases (stripSign s).1 <;> simp only [if_true, if_false] <;>
            (repeat' split) <;> simp

/-! Claim theorems. -/

/-- C2 (amended): `expect_children(node, n)` panics (it does not return an
error value) when the node does not support children; when the node
supports children it succeeds exactly when their count equals `n`, and
otherwise fails with an error value naming the offending node. -/
theorem c2_expect_children (node : Node) (n : ℕ) :
    (node.children = none →
      expect_children node n = .panic "node cannot have children") ∧
    (∀ cs, node.children = some cs →
      ((expect_children node n = pok PUnit.unit) ↔ cs.length = n) ∧
      (cs.length ≠ n → expect_children node n =
        perr (MDError.new ("expected node to have " ++ toString n
          ++ " children, but got " ++ toString cs.length) (some node)))) := by
  constructor
  · intro h
    unfold expect_children
    rw [h]
  · intro cs h
    unfold expect_children
    rw [h]
    by_cases hl : cs.length = n
    · simp [hl, pok, perr]
    · simp [hl, pok, perr]

/-- C2 counterexample: on a node that does not support children (a text
node), `expect_children` panics instead of returning an error value. -/
theorem c2_expect_children_cex :
    expect_children (Node.text "x".data) 0 = .panic "node cannot have children"
      ∧ ¬ ∃ r : MDResult PUnit, expect_children (Node.text "x".data) 0 = .value r := by
  constructor
  · rfl
  · rintro ⟨r, hr⟩
    have h : (PanicOr.panic "node cannot have children" : PE PUnit) = .value r := hr
    cases h

/-- C2 witness. -/
theorem c2_expect_children_witness :
    expect_children (Node.paragraph []) 0 = pok PUnit.unit :=
  ((c2_expect_children (Node.paragraph []) 0).2 [] rfl).1.mpr rfl

/-- C6: family-restricted quantity parsing either succeeds, or fails with
an invalid-unit error carrying the exact trimmed unit token (when the token
does not decode in the family), or fails with an invalid-amount error
carrying the offending amount substring and the underlying numeric error;
the two failure kinds are distinct constructors of
`ParseQuantityOfError`. -/
theorem c6_quantity_of_errors {τ : Type} (fromStrT : Str → Option τ) (s : Str) :
    (fromStrT (unitToken s) = none →
      QuantityOf.from_str fromStrT s = .error (.InvalidUnit (unitToken s))) ∧
    (∀ u e, fromStrT (unitToken s) = some u → parseF32 (amountToken s) = .error e →
      QuantityOf.from_str fromStrT s = .error (.InvalidAmount (amountToken s) e)) ∧
    (∀ u a, fromStrT (unitToken s) = some u → parseF32 (amountToken s) = .ok a →
      QuantityOf.from_str fromStrT s = .ok ⟨u, a⟩) := by
  refine ⟨?_, ?_, ?_⟩
  · intro h
    unfold QuantityOf.from_str
    rw [h]
  · intro u e hu he
    unfold QuantityOf.from_str
    rw [hu, he]
  · intro u a hu ha
    unfold QuantityOf.from_str
    rw [hu, ha]

/-- C6 witness (the repo's own test case `1,0 g` for `Mass`). -/
theorem c6_quantity_of_errors_witness :
    QuantityOf.from_str Mass.from_str "1,0 g".data
      = .error (.InvalidAmount "1,0".data .invalid) :=
  (c6_quantity_of_errors Mass.from_str "1,0 g".data).2.1 .Gram .invalid rfl rfl

/-- C10 (implicit): when the unit token does not decode in the family, the
error is invalid-unit even when the amount segment is also unparseable —
the unit is validated first, so invalid-unit takes precedence. -/
theorem c10_invalid_unit_precedence {τ : Type} (fromStrT : Str → Option τ) (s : Str)
    (hu : fromStrT (unitToken s) = none)
    (_ha : ∃ e, parseF32 (amountToken s) = .error e) :
    QuantityOf.from_str fromStrT s = .error (.InvalidUnit (unitToken s)) := by
  unfold QuantityOf.from_str
  rw [hu]

/-- C10 witness: the empty input, where both segments are empty and both
checks fail, yields the invalid-unit error. -/
theorem c10_invalid_unit_precedence_witness :
    QuantityOf.from_str Mass.from_str [] = .error (.InvalidUnit []) :=
  c10_invalid_unit_precedence Mass.from_str [] rfl ⟨.empty, rfl⟩

/-- C8: `sanitize` never fails (it is a total function), is the identity on
already-base units and on `Custom` units, and is idempotent on both the
unit and the amount. -/
theorem c8_sanitize_idempotent :
    (∀ u a, Unit.is_base u = true → Quantity.sanitize ⟨u, a⟩ = ⟨u, a⟩) ∧
    (∀ s a, Quantity.sanitize ⟨.Custom s, a⟩ = ⟨.Custom s, a⟩) ∧
    (∀ q : Quantity, q.sanitize.sanitize = q.sanitize) := by
  refine ⟨?_, ?_, ?_⟩
  · intro u a h
    cases u with
    | Nominal v => cases v; rfl
    | Mass v => cases v <;> first | rfl | exact absurd h (by decide)
    | Volume v => cases v <;> first | rfl | exact absurd h (by decide)
    | Distance v => cases v <;> first | rfl | exact absurd h (by decide)
    | Temperature v => cases v <;> first | rfl | exact absurd h (by decide)
    | Time v => cases v <;> rfl
    | Custom s => rfl
  · intro s a
    rfl
  · intro q
    obtain ⟨u, a⟩ := q
    cases u with
    | Nominal v => cases v; rfl
    | Mass v => cases v <;> rfl
    | Volume v => cases v <;> rfl
    | Distance v => cases v <;> rfl
    | Temperature v => cases v <;> rfl
    | Time v => cases v <;> rfl
    | Custom s => rfl

/-- C8 witness. -/
theorem c8_sanitize_idempotent_witness :
    Quantity.sanitize ⟨.Mass .Gram, .finite ⟨3, 1⟩⟩ = ⟨.Mass .Gram, .finite ⟨3, 1⟩⟩ :=
  c8_sanitize_idempotent.1 (.Mass .Gram) (.finite ⟨3, 1⟩) (by decide)

theorem unit_from_str_not_custom {s t : Str} : Unit.from_str s ≠ some (.Custom t) := by
  unfold Unit.from_str
  repeat' split
  all_goals simp

/-- C5: total unit decoding tries the families in the fixed priority order
Nominal (empty-only), Mass, Volume (mapping `gal` to Gallon), Distance,
Temperature, Time — each matching case-insensitively — and yields
`Custom(token)` exactly when every family rejects the token. -/
theorem c5_unit_decode_total :
    (∀ s : Str, Unit.decode s = .Custom s ↔ Unit.from_str s = none) ∧
    (∀ s : Str, Unit.from_str s = none ↔
      (Nominal.from_str s = none ∧ Mass.from_str s = none ∧ Volume.from_str s = none ∧
        Distance.from_str s = none ∧ Temperature.from_str s = none ∧
        Time.from_str s = none)) ∧
    (∀ s u, Nominal.from_str s = some u → Unit.decode s = .Nominal u) ∧
    (∀ s u, Nominal.from_str s = none → Mass.from_str s = some u →
      Unit.decode s = .Mass u) ∧
    (∀ s u, Nominal.from_str s = none → Mass.from_str s = none →
      Volume.from_str s = some u → Unit.decode s = .Volume u) ∧
    (∀ s u, Nominal.from_str s = none → Mass.from_str s = none →
      Volume.from_str s = none → Distance.from_str s = some u →
      Unit.decode s = .Distance u) ∧
    (∀ s u, Nominal.from_str s = none → Mass.from_str s = none →
      Volume.from_str s = none → Distance.from_str s = none →
      Temperature.from_str s = some u → Unit.decode s = .Temperature u) ∧
    (∀ s u, Nominal.from_str s = none → Mass.from_str s = none →
      Volume.from_str s = none → Distance.from_str s = none →
      Temperature.from_str s = none → Time.from_str s = some u →
      Unit.decode s = .Time u) ∧
    (∀ s, Nominal.from_str s = some .mk ↔ s = []) ∧
    (∀ s t : Str, toLowerStr s = toLowerStr t →
      Mass.from_str s = Mass.from_str t ∧ Volume.from_str s = Volume.from_str t ∧
        Distance.from_str s = Distance.from_str t ∧
        Temperature.from_str s = Temperature.from_str t ∧
        Time.from_str s = Time.from_str t) ∧
    (Volume.from_str "gal".data = some .Gallon ∧
      Volume.from_str "GAL".data = some .Gallon ∧
      Unit.decode "Gal".data = .Volume .Gallon) := by
  refine ⟨?_, ?_, ?_, ?_, ?_, ?_, ?_, ?_, ?_, ?_, ?_⟩
  · intro s
    unfold Unit.decode
    cases hf : Unit.from_str s with
    | none => simp
    | some u =>
      simp only [reduceCtorEq, iff_false]
      intro hc
      exact absurd (hc ▸ hf) unit_from_str_not_custom
  · intro s
    constructor
    · intro h
      unfold Unit.from_str at h
      split at h
      · cases h
      · split at h
        · cases h
        · split at h
          · cases h
          · split at h
            · cases h
            · split at h
              · cases h
              · split at h
                · cases h
                · exact ⟨‹_›, ‹_›, ‹_›, ‹_›, ‹_›, ‹_›⟩
    · rintro ⟨h1, h2, h3, h4, h5, h6⟩
      simp [Unit.from_str, h1, h2, h3, h4, h5, h6]
  · intro s u h
    simp [Unit.decode, Unit.from_str, h]
  · intro s u h1 h2
    simp [Unit.decode, Unit.from_str, h1, h2]
  · intro s u h1 h2 h3
    simp [Unit.decode, Unit.from_str, h1, h2, h3]
  · intro s u h1 h2 h3 h4
    simp [Unit.decode, Unit.from_str, h1, h2, h3, h4]
  · intro s u h1 h2 h3 h4 h5
    simp [Unit.decode, Unit.from_str, h1, h2, h3, h4, h5]
  · intro s u h1 h2 h3 h4 h5 h6
    simp [Unit.decode, Unit.from_str, h1, h2, h3, h4, h5, h6]
  · intro s
    unfold Nominal.from_str
    split <;> simp_all
  · intro s t h
    refine ⟨?_, ?_, ?_, ?_, ?_⟩
    · unfold Mass.from_str; rw [h]
    · unfold Volume.from_str; rw [h]
    · unfold Distance.from_str; rw [h]
    · unfold Temperature.from_str; rw [h]
    · unfold Time.from_str; rw [h]
  · exact ⟨rfl, rfl, rfl⟩

/-- C5 witness: the priority cascade at the token `g` (Nominal rejects it,
Mass accepts it as Gram). -/
theorem c5_unit_decode_total_witness : Unit.decode "g".data = .Mass .Gram :=
  c5_unit_decode_total.2.2.2.1 "g".data .Gram rfl rfl

/-- C1 (amended): for a strong node in a step description, one text child
whose text parses as a Time-family quantity becomes a `Timer`; one text
child whose text does not parse as a time quantity is an error naming the
offending text; but a strong node with zero children yields
`IngredientRef("")` (not a `Timer` and not an error), so a successful
result is either a `Timer` or that empty `IngredientRef`. -/
theorem c1_strong_text_elem (cs : List Node) :
    (cs = [] → TextElem.from_node (.strong cs) = .ok (.IngredientRef [])) ∧
    (∀ t q, cs = [.text t] → QuantityOf.from_str Time.from_str t = .ok q →
      TextElem.from_node (.strong cs) = .ok (.Timer q)) ∧
    (∀ t e, cs = [.text t] → QuantityOf.from_str Time.from_str t = .error e →
      TextElem.from_node (.strong cs) = .error (MDError.new
        ("expected time information but got \"" ++ String.mk t ++ "\"")
        (some (.text t)))) ∧
    (∀ el, TextElem.from_node (.strong cs) = .ok el →
      el = .IngredientRef [] ∨ ∃ q, el = .Timer q) := by
  refine ⟨?_, ?_, ?_, ?_⟩
  · intro h
    subst h
    rfl
  · intro t q h hq
    subst h
    simp [TextElem.from_node, hq]
  · intro t e h he
    subst h
    simp [TextElem.from_node, he]
  · intro el h
    match cs with
    | [] =>
      left
      have h' : (Except.ok (TextElem.IngredientRef []) : MDResult TextElem) = .ok el := h
      cases h'
      rfl
    | [Node.text t] =>
      right
      cases hq : QuantityOf.from_str Time.from_str t with
      | ok q =>
        have h' : TextElem.from_node (.strong [.text t]) = .ok (.Timer q) := by
          simp [TextElem.from_node, hq]
        rw [h'] at h
        cases h
        exact ⟨q, rfl⟩
      | error e =>
        have h' : TextElem.from_node (.strong [.text t]) = .error (MDError.new
            ("expected time information but got \"" ++ String.mk t ++ "\"")
            (some (.text t))) := by
          simp [TextElem.from_node, hq]
        rw [h'] at h
        cases h
    | [Node.root cs'] => simp [TextElem.from_node] at h
    | [Node.heading d cs'] => simp [TextElem.from_node] at h
    | [Node.paragraph cs'] => simp [TextElem.from_node] at h
    | [Node.list cs'] => simp [TextElem.from_node] at h
    | [Node.listItem cs'] => simp [TextElem.from_node] at h
    | [Node.emphasis cs'] => simp [TextElem.from_node] at h
    | [Node.strong cs'] => simp [TextElem.from_node] at h
    | [Node.yaml v] => simp [TextElem.from_node] at h
    | [Node.thematicBreak] => simp [TextElem.from_node] at h
    | c1 :: c2 :: rest => simp [TextElem.from_node] at h

/-- C1 counterexample: a strong node with zero children yields an
`IngredientRef`, not a `Timer` (and not an error). -/
theorem c1_strong_text_elem_cex :
    TextElem.from_node (.strong []) = .ok (.IngredientRef [])
      ∧ ¬ ∃ q, TextElem.from_node (.strong []) = .ok (.Timer q) := by
  constructor
  · rfl
  · rintro ⟨q, hq⟩
    have h : (Except.ok (.IngredientRef []) : MDResult TextElem) = .ok (.Timer q) := hq
    simp at h

/-- C1 witness: the spec's example, `**10 minutes**` becomes one `Timer`
with amount 10 and a Minute unit. -/
theorem c1_strong_text_elem_witness :
    TextElem.from_node (.strong [.text "10 minutes".data])
      = .ok (.Timer ⟨.Minute, .finite ⟨10, 1⟩⟩) :=
  (c1_strong_text_elem [.text "10 minutes".data]).2.1 "10 minutes".data
    ⟨.Minute, .finite ⟨10, 1⟩⟩ rfl (by rfl)

theorem not_alpha_of_fSplit_false {c : Char} (h : fSplitQuantity c = false) :
    c.isAlpha = false := by
  unfold fSplitQuantity at h
  rw [decide_eq_false_iff_not] at h
  push_neg at h
  simpa using h.1

theorem amountToken_no_alpha (s : Str) : ∀ c ∈ amountToken s, c.isAlpha = false := by
  intro c hc
  unfold amountToken at hc
  have hc' := mem_of_mem_trimChars hc
  cases hfi : findFirstIdx fSplitQuantity s with
  | some idx =>
    rw [hfi] at hc'
    exact not_alpha_of_fSplit_false ((findFirstIdx_eq_some _ s idx hfi).1 c hc')
  | none =>
    rw [hfi] at hc'
    simp only [Option.getD_none, List.take_length] at hc'
    exact not_alpha_of_fSplit_false (findFirstIdx_eq_none _ s hfi c hc')

/-- C3 (amended): `Quantity::from_str` either fails with the numeric-parse
error of the amount segment — in particular when that segment is not a
valid float or is empty — or returns a quantity whose amount is never NaN;
the amount can however be an infinity, when the decimal literal overflows
the f32 range. -/
theorem quantity_from_str_eq (s : Str) :
    Quantity.from_str s =
      match parseF32 (amountToken s) with
      | .error e => .error e
      | .ok a => .ok ⟨quantityUnitOf s, a⟩ := by
  unfold Quantity.from_str quantityUnitOf amountToken
  cases hfi : findFirstIdx fSplitQuantity s with
  | some idx => simp only [Option.getD_some]
  | none => simp only [Option.getD_none, List.take_length]

theorem c3_quantity_amount (s : Str) :
    (∀ q, Quantity.from_str s = .ok q → q.amount ≠ .nan) ∧
    (∀ e, parseF32 (amountToken s) = .error e → Quantity.from_str s = .error e) ∧
    (∀ e, Quantity.from_str s = .error e → parseF32 (amountToken s) = .error e) := by
  have hamount : ∀ a, parseF32 (amountToken s) = .ok a → a ≠ .nan := by
    intro a ha hn
    subst hn
    exact parseF32_ne_ok_nan (amountToken_no_alpha s) ha
  refine ⟨?_, ?_, ?_⟩
  · intro q hq
    rw [quantity_from_str_eq] at hq
    cases hp : parseF32 (amountToken s) with
    | error e =>
      rw [hp] at hq
      simp at hq
    | ok a =>
      rw [hp] at hq
      simp only [] at hq
      cases hq
      exact hamount a hp
  · intro e he
    rw [quantity_from_str_eq, he]
  · intro e he
    rw [quantity_from_str_eq] at he
    cases hp : parseF32 (amountToken s) with
    | error e' =>
      rw [hp] at he
      simp at he
      subst he
      rfl
    | ok a =>
      rw [hp] at he
      simp at he

/-- C3 counterexample: a 39-digit decimal literal has no alphabetic
character, so the whole trimmed text is the amount; it overflows the f32
range and parses to an infinite amount instead of failing. -/
theorem c3_quantity_amount_cex :
    Quantity.from_str "400000000000000000000000000000000000000".data
      = .ok ⟨.Nominal .mk, .inf⟩
    ∧ ¬ ∃ v, (F32.inf = F32.finite v) := by
  constructor
  · decide
  · rintro ⟨v, hv⟩
    cases hv

/-- C3 witness. -/
theorem c3_quantity_amount_witness :
    Quantity.from_str "10 g".data = .ok ⟨.Mass .Gram, .finite ⟨10, 1⟩⟩
      ∧ (Quantity.mk (.Mass .Gram) (.finite ⟨10, 1⟩)).amount ≠ .nan :=
  ⟨by decide, (c3_quantity_amount "10 g".data).1 ⟨.Mass .Gram, .finite ⟨10, 1⟩⟩ (by decide)⟩

/-- C9: `consume_to_next_heading(depth)` consumes and returns exactly the
contiguous run of nodes from the cursor up to but excluding the first
heading of the given depth (which stays unconsumed at the new cursor), all
remaining nodes when no such heading remains, and the empty sequence at the
end; the cursor index never decreases and never passes the end, so no node
is returned twice. -/
theorem c9_consume_to_next_heading (c : ASTConsumer) (depth : ℕ)
    (h : c.idx ≤ c.nodes.length) :
    ((c.consume_to_next_heading depth).2.nodes = c.nodes) ∧
    (c.idx ≤ (c.consume_to_next_heading depth).2.idx) ∧
    ((c.consume_to_next_heading depth).2.idx ≤ c.nodes.length) ∧
    ((c.consume_to_next_heading depth).1
      = (c.nodes.drop c.idx).take ((c.consume_to_next_heading depth).2.idx - c.idx)) ∧
    (∀ n ∈ (c.consume_to_next_heading depth).1, isHeadingAtDepth depth n = false) ∧
    (∀ nd rest, c.nodes.drop (c.consume_to_next_heading depth).2.idx = nd :: rest →
      isHeadingAtDepth depth nd = true) ∧
    (c.idx = c.nodes.length → (c.consume_to_next_heading depth).1 = []) := by
  unfold ASTConsumer.consume_to_next_heading
  by_cases he : c.idx = c.nodes.length
  · rw [if_pos he]
    dsimp only
    refine ⟨rfl, le_refl _, h, by simp, ?_, ?_, fun _ => rfl⟩
    · intro n hn
      simp at hn
    · intro nd rest hd
      rw [he, List.drop_length] at hd
      cases hd
  · rw [if_neg he]
    split
    · rename_i k hfi
      dsimp only
      obtain ⟨htake, a, t, hdrop, hp⟩ := findFirstIdx_eq_some _ _ k hfi
      have hklt : k < (c.nodes.drop c.idx).length := by
        by_contra hcon
        push_neg at hcon
        rw [List.drop_eq_nil_of_le hcon] at hdrop
        cases hdrop
      rw [List.length_drop] at hklt
      refine ⟨rfl, Nat.le_add_right _ _, by omega, by simp, htake, ?_, ?_⟩
      · intro nd rest hd
        have hdd : List.drop (c.idx + k) c.nodes
            = List.drop k (List.drop c.idx c.nodes) := by
          rw [List.drop_drop, Nat.add_comm]
        rw [hdd, hdrop] at hd
        cases hd
        exact hp
      · intro hcon
        exact absurd hcon he
    · rename_i hfi
      dsimp only
      have hall := findFirstIdx_eq_none _ _ hfi
      refine ⟨rfl, h, le_refl _, ?_, hall, ?_, ?_⟩
      · rw [← List.length_drop]
        exact (List.take_length _).symm
      · intro nd rest hd
        rw [List.drop_length] at hd
        cases hd
      · intro hcon
        exact absurd hcon he

theorem forall_decide_eq_false_of_containsChar_false {c : Char} {s : Str}
    (h : containsChar c s = false) : ∀ a ∈ s, decide (a = c) = false := by
  intro a ha
  unfold containsChar at h
  by_contra hne
  rw [Bool.not_eq_false, decide_eq_true_eq] at hne
  subst hne
  rw [List.contains_eq_any_beq] at h
  have : s.any (a == ·) = true := List.any_eq_true.mpr ⟨a, ha, by simp⟩
  rw [this] at h
  cases h

theorem splitOnChar_ne_nil (sep : Char) (l : Str) : splitOnChar sep l ≠ [] := by
  cases l with
  | nil => simp [splitOnChar]
  | cons c rest =>
    unfold splitOnChar
    cases h : splitOnChar sep rest with
    | nil => simp
    | cons s ss => by_cases hc : c = sep <;> simp [hc]

theorem quantLoop_ge_two :
    ∀ (segs : List Str) (i : ℕ) (q0 : Quantity) (l : List Quantity), 2 ≤ i →
      quantLoop i (some q0) (some l) segs =
        match quantitySegsSpec segs with
        | .error e => perr e
        | .ok qs => pok (some q0, some (l ++ qs)) := by
  intro segs
  induction segs with
  | nil => intro i q0 l _; simp [quantLoop, quantitySegsSpec]
  | cons s rest ih =>
    intro i q0 l hi
    have hi0 : ¬ i = 0 := by omega
    have hi1 : ¬ i = 1 := by omega
    unfold quantLoop quantitySegsSpec quantitySegSpec
    by_cases hforb : FORBIDDEN_CHARS.any (fun c => containsChar c s) = true
    · simp [hforb]
    · rw [Bool.not_eq_true] at hforb
      cases hq : Quantity.from_str (trimChars s) with
      | error e => simp [hforb, hq]
      | ok quant =>
        simp only [hforb, Bool.false_eq_true, if_false, hq, hi0, hi1]
        rw [ih (i + 1) q0 (l ++ [quant]) (by omega)]
        cases hspec : quantitySegsSpec rest with
        | error e => simp [hspec]
        | ok qs => simp [hspec]

theorem quantLoop_one (segs : List Str) (q0 : Quantity) :
    quantLoop 1 (some q0) none segs =
      match quantitySegsSpec segs with
      | .error e => perr e
      | .ok [] => pok (some q0, none)
      | .ok (q1 :: qs) => pok (some q0, some (q1 :: qs)) := by
  cases segs with
  | nil => simp [quantLoop, quantitySegsSpec]
  | cons s rest =>
    unfold quantLoop quantitySegsSpec quantitySegSpec
    by_cases hforb : FORBIDDEN_CHARS.any (fun c => containsChar c s) = true
    · simp [hforb]
    · rw [Bool.not_eq_true] at hforb
      cases hq : Quantity.from_str (trimChars s) with
      | error e => simp [hforb, hq]
      | ok quant =>
        simp only [hforb, Bool.false_eq_true, if_false, hq, Nat.one_ne_zero, if_true]
        rw [quantLoop_ge_two rest 2 q0 [quant] (by omega)]
        cases hspec : quantitySegsSpec rest with
        | error e => simp [hspec]
        | ok qs => simp [hspec]

theorem quantLoop_zero (s : Str) (rest : List Str) :
    quantLoop 0 none none (s :: rest) =
      match quantitySegsSpec (s :: rest) with
      | .error e => perr e
      | .ok [] => pok (none, none)
      | .ok (q :: qs) => pok (some q, if qs = [] then none else some qs) := by
  unfold quantLoop quantitySegsSpec quantitySegSpec
  by_cases hforb : FORBIDDEN_CHARS.any (fun c => containsChar c s) = true
  · simp [hforb]
  · rw [Bool.not_eq_true] at hforb
    cases hq : Quantity.from_str (trimChars s) with
    | error e => simp [hforb, hq]
    | ok quant =>
      simp only [hforb, Bool.false_eq_true, if_false, hq, if_true]
      rw [quantLoop_one rest quant]
      cases hspec : quantitySegsSpec rest with
      | error e => simp [hspec]
      | ok qs => cases qs <;> simp [hspec]

theorem dropLast_append_single : ∀ (l : List α) (a : α), (l ++ [a]).dropLast = l
  | [], _ => rfl
  | [_], _ => rfl
  | x :: y :: t, a => by
    have ih := dropLast_append_single (y :: t) a
    simp only [List.cons_append] at ih ⊢
    rw [List.dropLast_cons₂, ih]

theorem ingredient_from_str_quantity_part (T pre rest : Str) (info : Option Str)
    (htrim : trimChars T = T)
    (hinfo : infoStep T = .ok (info, pre ++ ',' :: rest))
    (hcheck : infoCheck info = .ok PUnit.unit)
    (hpre : containsChar ',' pre = false)
    (hname : ¬ trimChars pre = [])
    (hforb : FORBIDDEN_CHARS.any (fun c => containsChar c (trimChars pre)) = false) :
    (∀ e, quantitySegsSpec (splitOnChar '/' rest) = .error e →
      Ingredient.from_str T = perr e) ∧
    (∀ q qs, quantitySegsSpec (splitOnChar '/' rest) = .ok (q :: qs) →
      Ingredient.from_str T
        = pok ⟨trimChars pre, some q, if qs = [] then none else some qs, info⟩) := by
  have hfi : findFirstIdx (fun c => decide (c = ',')) (pre ++ ',' :: rest)
      = some pre.length :=
    findFirstIdx_append_cons _ pre ',' rest
      (forall_decide_eq_false_of_containsChar_false hpre) (by simp)
  have hquant : quantStep (pre ++ ',' :: rest)
      = pbind (quantLoop 0 none none (splitOnChar '/' rest))
          fun x => pok (x.1, x.2, pre) := by
    unfold quantStep
    rw [hfi]
    dsimp only
    rw [take_length_append, drop_length_append_cons]
  have hmain : Ingredient.from_str T
      = pbind (quantLoop 0 none none (splitOnChar '/' rest))
          fun x =>
            if trimChars pre = [] then
              perr (MDError.new ("name cannot be empty: " ++ String.mk (trimChars pre)) none)
            else if FORBIDDEN_CHARS.any (fun c => containsChar c (trimChars pre)) then
              perr (MDError.new "name contains forbidden character" none)
            else pok { name := trimChars pre, quantity := x.1,
                       alt_quantities := x.2, info := info } := by
    unfold Ingredient.from_str
    rw [htrim, hinfo]
    dsimp only
    rw [hcheck]
    dsimp only
    rw [hquant]
    cases hloop : quantLoop 0 none none (splitOnChar '/' rest) with
    | panic m => rfl
    | value v =>
      cases v with
      | error e => rfl
      | ok x => rfl
  obtain ⟨s0, segs, hsplit⟩ :
      ∃ s0 segs, splitOnChar '/' rest = s0 :: segs := by
    cases hs : splitOnChar '/' rest with
    | nil => exact absurd hs (splitOnChar_ne_nil '/' rest)
    | cons s0 segs => exact ⟨s0, segs, rfl⟩
  rw [hsplit] at hmain
  rw [quantLoop_zero s0 segs] at hmain
  constructor
  · intro e he
    rw [hsplit] at he
    rw [he] at hmain
    exact hmain
  · intro q qs hqs
    rw [hsplit] at hqs
    rw [hqs] at hmain
    rw [hmain]
    simp only [pbind, pok, hforb, Bool.false_eq_true, if_false, hname, ite_false]

/-- C7 (amended): in the richer ingredient grammar, after any trailing
parenthetical info is removed, the text after the first comma is split on
`/`; the first parsed quantity becomes `quantity` and the further ones
accumulate in order into `alt_quantities`; every segment must be free of
the forbidden characters — a violation fails the whole parse with the
offending segment surfaced — and must parse as a `Quantity` — a parse
failure fails the whole parse surfacing only the underlying numeric error,
not the offending segment (see `quantitySegsSpec` and the counterexample).
The first conjunct covers texts without parenthetical info, the second
covers texts with a trailing parenthetical info block, and the third checks
a concrete info-carrying input end to end. -/
theorem c7_ingredient_quantities :
    (∀ pre rest : Str, trimChars (pre ++ ',' :: rest) = pre ++ ',' :: rest →
      endsWithChar ')' (pre ++ ',' :: rest) = false →
      containsChar ',' pre = false → ¬ trimChars pre = [] →
      FORBIDDEN_CHARS.any (fun c => containsChar c (trimChars pre)) = false →
      (∀ e, quantitySegsSpec (splitOnChar '/' rest) = .error e →
        Ingredient.from_str (pre ++ ',' :: rest) = perr e) ∧
      (∀ q qs, quantitySegsSpec (splitOnChar '/' rest) = .ok (q :: qs) →
        Ingredient.from_str (pre ++ ',' :: rest)
          = pok ⟨trimChars pre, some q, if qs = [] then none else some qs, none⟩)) ∧
    (∀ pre rest infoT : Str,
      trimChars ((pre ++ ',' :: rest) ++ '(' :: (infoT ++ [')']))
        = (pre ++ ',' :: rest) ++ '(' :: (infoT ++ [')']) →
      containsChar '(' (pre ++ ',' :: rest) = false →
      containsChar ',' pre = false → ¬ trimChars pre = [] →
      FORBIDDEN_CHARS.any (fun c => containsChar c (trimChars pre)) = false →
      INFO_FORBIDDEN_CHARS.any (fun c => containsChar c (trimChars infoT)) = false →
      (∀ e, quantitySegsSpec (splitOnChar '/' rest) = .error e →
        Ingredient.from_str ((pre ++ ',' :: rest) ++ '(' :: (infoT ++ [')']))
          = perr e) ∧
      (∀ q qs, quantitySegsSpec (splitOnChar '/' rest) = .ok (q :: qs) →
        Ingredient.from_str ((pre ++ ',' :: rest) ++ '(' :: (infoT ++ [')']))
          = pok ⟨trimChars pre, some q, if qs = [] then none else some qs,
              some (trimChars infoT)⟩)) ∧
    (Ingredient.from_str "name, 1 tbsp (optional, spicy)".data
      = pok ⟨"name".data, some ⟨.Volume .Tablespoon, .finite ⟨1, 1⟩⟩, none,
          some "optional, spicy".data⟩) := by
  refine ⟨?_, ?_, by rfl⟩
  · intro pre rest htrim hend hpre hname hforb
    refine ingredient_from_str_quantity_part (pre ++ ',' :: rest) pre rest none
      htrim ?_ rfl hpre hname hforb
    unfold infoStep
    rw [hend]
    simp
  · intro pre rest infoT htrim hnopar hpre hname hforb hinfoforb
    refine ingredient_from_str_quantity_part
      ((pre ++ ',' :: rest) ++ '(' :: (infoT ++ [')'])) pre rest
      (some (trimChars infoT)) htrim ?_ ?_ hpre hname hforb
    · have hend : endsWithChar ')'
          ((pre ++ ',' :: rest) ++ '(' :: (infoT ++ [')'])) = true := by
        unfold endsWithChar
        rw [show (pre ++ ',' :: rest) ++ '(' :: (infoT ++ [')'])
            = ((pre ++ ',' :: rest) ++ '(' :: infoT) ++ [')'] from by simp]
        rw [List.getLast?_concat]
        rfl
      have hfi0 : findFirstIdx (fun c => decide (c = '('))
          ((pre ++ ',' :: rest) ++ '(' :: (infoT ++ [')']))
          = some (pre ++ ',' :: rest).length :=
        findFirstIdx_append_cons _ (pre ++ ',' :: rest) '(' (infoT ++ [')'])
          (forall_decide_eq_false_of_containsChar_false hnopar) (by simp)
      unfold infoStep
      rw [hend]
      rw [if_pos rfl]
      rw [hfi0]
      dsimp only
      rw [drop_length_append_cons, take_length_append, dropLast_append_single]
    · simp [infoCheck, hinfoforb]

/-- C7 counterexample: two inputs whose only difference is the offending
unparseable quantity segment produce the identical error value (its message
is built from the float error alone, ingredients.rs:116-117), so a parse
failure of a segment does not surface the offending segment. -/
theorem c7_ingredient_quantities_cex :
    Ingredient.from_str "name, 1.5.1".data
      = perr (MDError.new "failed to parse quantity: invalid float literal" none)
    ∧ Ingredient.from_str "name, 2.7.3".data
      = perr (MDError.new "failed to parse quantity: invalid float literal" none) :=
  ⟨rfl, rfl⟩

/-- C7 witness: the spec's example `name, 15mL / 3 tsp / 1tbsp` yields
quantity 15 mL and alternative quantities 3 tsp and 1 tbsp, in order. -/
theorem c7_ingredient_quantities_witness :
    Ingredient.from_str "name, 15mL / 3 tsp / 1tbsp".data
      = pok ⟨"name".data, some ⟨.Volume .Milliliter, .finite ⟨15, 1⟩⟩,
          some [⟨.Volume .Teaspoon, .finite ⟨3, 1⟩⟩, ⟨.Volume .Tablespoon, .finite ⟨1, 1⟩⟩],
          none⟩ := by
  have h := (c7_ingredient_quantities.1 "name".data " 15mL / 3 tsp / 1tbsp".data
    (by decide) (by decide) (by decide) (by decide) (by decide)).2
    ⟨.Volume .Milliliter, .finite ⟨15, 1⟩⟩
    [⟨.Volume .Teaspoon, .finite ⟨3, 1⟩⟩, ⟨.Volume .Tablespoon, .finite ⟨1, 1⟩⟩]
    (by rfl)
  exact h.trans (by rfl)

/-- C9 witness. -/
theorem c9_consume_to_next_heading_witness :
    ((ASTConsumer.mk 0 [Node.text "a".data, Node.heading 2 [], Node.text "b".data]
        ).consume_to_next_heading 2).1 = [Node.text "a".data]
    ∧ ((ASTConsumer.mk 0 [Node.text "a".data, Node.heading 2 [], Node.text "b".data]
        ).consume_to_next_heading 2).2.idx = 1 := by
  have h := c9_consume_to_next_heading
    (ASTConsumer.mk 0 [Node.text "a".data, Node.heading 2 [], Node.text "b".data]) 2
    (Nat.zero_le _)
  exact ⟨h.2.2.2.1.trans (by rfl), by rfl⟩

theorem legacy_from_mdast_after_ingredients (name : Str) (rest2 : List Node) :
    legacy.Recipe.from_mdast (.root (Node.heading 1 [Node.text name]
        :: Node.heading 2 [Node.text "Ingredients".data] :: rest2))
      = pbind (legacy.IngredientList.from_mdast
          ((ASTConsumer.mk 2 (Node.heading 1 [Node.text name]
            :: Node.heading 2 [Node.text "Ingredients".data] :: rest2)
            ).consume_to_next_heading 2).1)
          (fun ingredients =>
            pbind (((ASTConsumer.mk 2 (Node.heading 1 [Node.text name]
                :: Node.heading 2 [Node.text "Ingredients".data] :: rest2)
                ).consume_to_next_heading 2).2.consume_next)
              fun x =>
                pbind (get_heading x.1 2 (some "Steps".data)) fun _ =>
                  pbind (liftE (legacy.Steps.from_mdast
                      ((x.2.consume_to_next_heading 2).1)))
                    fun steps => pok ⟨name, ingredients, steps⟩) := rfl

/-- C4 (amended): the early-dialect `Recipe::from_mdast` fails with a
structural error naming the offending node on a wrong node kind or wrong
heading depth at the title and Ingredients headings, on a wrong Ingredients
or Steps heading text, and on a non-depth-2 node standing where the Steps
heading is required (such a node is absorbed into the ingredients section
and flagged there, still naming it); but top-level nodes left after the
consumed Steps section (i.e. from the next depth-2 heading on) are silently
ignored, not an error. -/
theorem c4_recipe_structure :
    (∀ (extra : List Node) (name : Str),
      legacy.Recipe.from_mdast (.root
        ([.heading 1 [.text name], .heading 2 [.text "Ingredients".data],
          .heading 2 [.text "Steps".data], .heading 2 [.text "Extra".data]] ++ extra))
        = pok ⟨name, ⟨[]⟩, ⟨⟩⟩) ∧
    (∀ (n0 : Node) (rest : List Node), (∀ (dd : ℕ) (ccs : List Node), n0 ≠ .heading dd ccs) →
      legacy.Recipe.from_mdast (.root (n0 :: rest))
        = perr (MDError.new "expected first node to be heading" (some n0))) ∧
    (∀ (d : ℕ) (cs rest : List Node), ¬ d = 1 →
      legacy.Recipe.from_mdast (.root (.heading d cs :: rest))
        = perr (MDError.new ("expected heading at depth 1, but got " ++ toString d)
            (some (.heading d cs)))) ∧
    (∀ (name : Str) (n1 : Node) (rest : List Node),
        (∀ (dd : ℕ) (ccs : List Node), n1 ≠ .heading dd ccs) →
      legacy.Recipe.from_mdast (.root (.heading 1 [.text name] :: n1 :: rest))
        = perr (MDError.new "expected first node to be heading" (some n1))) ∧
    (∀ (name : Str) (cs rest : List Node) (d : ℕ), ¬ d = 2 →
      legacy.Recipe.from_mdast
          (.root (.heading 1 [.text name] :: .heading d cs :: rest))
        = perr (MDError.new ("expected heading at depth 2, but got " ++ toString d)
            (some (.heading d cs)))) ∧
    (∀ (name t : Str) (rest : List Node), ¬ t = "Ingredients".data →
      legacy.Recipe.from_mdast
          (.root (.heading 1 [.text name] :: .heading 2 [.text t] :: rest))
        = perr (MDError.new
            ("expected heading \"Ingredients\", but got \"" ++ String.mk t ++ "\"")
            (some (.text t)))) ∧
    (∀ (name t : Str) (rest : List Node), ¬ t = "Steps".data →
      legacy.Recipe.from_mdast
          (.root (.heading 1 [.text name] :: .heading 2 [.text "Ingredients".data]
            :: .heading 2 [.text t] :: rest))
        = perr (MDError.new
            ("expected heading \"Steps\", but got \"" ++ String.mk t ++ "\"")
            (some (.text t)))) ∧
    (∀ (name : Str) (d : ℕ) (cs rest : List Node), ¬ d = 2 →
      legacy.Recipe.from_mdast
          (.root (.heading 1 [.text name] :: .heading 2 [.text "Ingredients".data]
            :: .heading d cs :: .heading 2 [.text "Steps".data] :: rest))
        = perr (MDError.new "ingredients must be list" (some (.heading d cs)))) ∧
    (∀ (name : Str) (cs rest : List Node),
      legacy.Recipe.from_mdast
          (.root (.heading 1 [.text name] :: .heading 2 [.text "Ingredients".data]
            :: .paragraph cs :: .heading 2 [.text "Steps".data] :: rest))
        = perr (MDError.new "ingredients must be list" (some (.paragraph cs)))) := by
  refine ⟨?_, ?_, ?_, ?_, ?_, ?_, ?_, ?_, ?_⟩
  · intro extra name
    rfl
  · intro n0 rest h
    cases n0 with
    | heading dd ccs => exact absurd rfl (h dd ccs)
    | root cs' => rfl
    | text v => rfl
    | paragraph cs' => rfl
    | list cs' => rfl
    | listItem cs' => rfl
    | emphasis cs' => rfl
    | strong cs' => rfl
    | yaml v => rfl
    | thematicBreak => rfl
  · intro d cs rest h
    have hgh : get_heading (.heading d cs) 1 none
        = perr (MDError.new ("expected heading at depth 1, but got " ++ toString d)
            (some (.heading d cs))) := by
      simp only [get_heading]
      rw [if_pos h]
      rfl
    have hstep : legacy.Recipe.from_mdast (.root (.heading d cs :: rest))
        = pbind (get_heading (.heading d cs) 1 none) fun name =>
            pbind ((ASTConsumer.mk 1 (.heading d cs :: rest)).consume_next) fun x =>
              pbind (get_heading x.1 2 (some "Ingredients".data)) fun _ =>
                pbind (legacy.IngredientList.from_mdast
                    ((x.2.consume_to_next_heading 2).1)) fun ingredients =>
                  pbind ((x.2.consume_to_next_heading 2).2.consume_next) fun y =>
                    pbind (get_heading y.1 2 (some "Steps".data)) fun _ =>
                      pbind (liftE (legacy.Steps.from_mdast
                          ((y.2.consume_to_next_heading 2).1)))
                        fun steps => pok ⟨name, ingredients, steps⟩ := rfl
    rw [hstep, hgh]
    rfl
  · intro name n1 rest h
    cases n1 with
    | heading dd ccs => exact absurd rfl (h dd ccs)
    | root cs' => rfl
    | text v => rfl
    | paragraph cs' => rfl
    | list cs' => rfl
    | listItem cs' => rfl
    | emphasis cs' => rfl
    | strong cs' => rfl
    | yaml v => rfl
    | thematicBreak => rfl
  · intro name cs rest d h
    have hgh : get_heading (.heading d cs) 2 (some "Ingredients".data)
        = perr (MDError.new ("expected heading at depth 2, but got " ++ toString d)
            (some (.heading d cs))) := by
      simp only [get_heading]
      rw [if_pos h]
      rfl
    have hstep : legacy.Recipe.from_mdast
        (.root (.heading 1 [.text name] :: .heading d cs :: rest))
        = pbind (get_heading (.heading d cs) 2 (some "Ingredients".data))
            fun _ =>
              pbind (legacy.IngredientList.from_mdast
                  ((ASTConsumer.mk 2 (.heading 1 [.text name] :: .heading d cs
                    :: rest)).consume_to_next_heading 2).1)
                fun ingredients =>
                  pbind (((ASTConsumer.mk 2 (.heading 1 [.text name]
                      :: .heading d cs :: rest)).consume_to_next_heading 2
                      ).2.consume_next)
                    fun x =>
                      pbind (get_heading x.1 2 (some "Steps".data)) fun _ =>
                        pbind (liftE (legacy.Steps.from_mdast
                            ((x.2.consume_to_next_heading 2).1)))
                          fun steps => pok ⟨name, ingredients, steps⟩ := rfl
    rw [hstep, hgh]
    rfl
  · intro name t rest h
    have hgh : get_heading (.heading 2 [.text t]) 2 (some "Ingredients".data)
        = perr (MDError.new
            ("expected heading \"Ingredients\", but got \"" ++ String.mk t ++ "\"")
            (some (.text t))) := by
      simp only [get_heading]
      rw [if_neg (by decide : ¬ ((2 : ℕ) ≠ 2))]
      rw [show expect_children (Node.heading 2 [Node.text t]) 1 = pok PUnit.unit from rfl]
      simp only [pbind]
      rw [if_pos h]
      rfl
    have hstep : legacy.Recipe.from_mdast
        (.root (.heading 1 [.text name] :: .heading 2 [.text t] :: rest))
        = pbind (get_heading (.heading 2 [.text t]) 2 (some "Ingredients".data))
            fun _ =>
              pbind (legacy.IngredientList.from_mdast
                  ((ASTConsumer.mk 2 (.heading 1 [.text name] :: .heading 2 [.text t]
                    :: rest)).consume_to_next_heading 2).1)
                fun ingredients =>
                  pbind (((ASTConsumer.mk 2 (.heading 1 [.text name]
                      :: .heading 2 [.text t] :: rest)).consume_to_next_heading 2
                      ).2.consume_next)
                    fun x =>
                      pbind (get_heading x.1 2 (some "Steps".data)) fun _ =>
                        pbind (liftE (legacy.Steps.from_mdast
                            ((x.2.consume_to_next_heading 2).1)))
                          fun steps => pok ⟨name, ingredients, steps⟩ := rfl
    rw [hstep, hgh]
    rfl
  · intro name t rest h
    have hgh : get_heading (.heading 2 [.text t]) 2 (some "Steps".data)
        = perr (MDError.new
            ("expected heading \"Steps\", but got \"" ++ String.mk t ++ "\"")
            (some (.text t))) := by
      simp only [get_heading]
      rw [if_neg (by decide : ¬ ((2 : ℕ) ≠ 2))]
      rw [show expect_children (Node.heading 2 [Node.text t]) 1 = pok PUnit.unit from rfl]
      simp only [pbind]
      rw [if_pos h]
      rfl
    have hstep : legacy.Recipe.from_mdast
        (.root (.heading 1 [.text name] :: .heading 2 [.text "Ingredients".data]
          :: .heading 2 [.text t] :: rest))
        = pbind (get_heading (.heading 2 [.text t]) 2 (some "Steps".data)) fun _ =>
            pbind (liftE (legacy.Steps.from_mdast
                (((ASTConsumer.mk 3 (.heading 1 [.text name]
                  :: .heading 2 [.text "Ingredients".data] :: .heading 2 [.text t]
                  :: rest)).consume_to_next_heading 2).1)))
              fun steps => pok ⟨name, ⟨[]⟩, steps⟩ := rfl
    rw [hstep, hgh]
    rfl
  · intro name d cs rest h
    have hfi : findFirstIdx (isHeadingAtDepth 2)
        (Node.heading d cs :: Node.heading 2 [Node.text "Steps".data] :: rest)
        = some 1 := by
      unfold findFirstIdx
      rw [if_neg (by simp [isHeadingAtDepth, h])]
      rfl
    have hrun : ((ASTConsumer.mk 2 (Node.heading 1 [Node.text name]
        :: Node.heading 2 [Node.text "Ingredients".data]
        :: Node.heading d cs :: Node.heading 2 [Node.text "Steps".data] :: rest)
        ).consume_to_next_heading 2)
        = ([Node.heading d cs], ASTConsumer.mk 3 (Node.heading 1 [Node.text name]
            :: Node.heading 2 [Node.text "Ingredients".data]
            :: Node.heading d cs :: Node.heading 2 [Node.text "Steps".data] :: rest)) := by
      unfold ASTConsumer.consume_to_next_heading
      rw [if_neg (by simp)]
      rw [show List.drop 2 (Node.heading 1 [Node.text name]
          :: Node.heading 2 [Node.text "Ingredients".data]
          :: Node.heading d cs :: Node.heading 2 [Node.text "Steps".data] :: rest)
          = Node.heading d cs :: Node.heading 2 [Node.text "Steps".data] :: rest from rfl]
      rw [hfi]
      rfl
    rw [legacy_from_mdast_after_ingredients name (Node.heading d cs
        :: Node.heading 2 [Node.text "Steps".data] :: rest), hrun]
    rfl
  · intro name cs rest
    rfl

/-- C4 counterexample: a document with a leftover unexpected top-level node
(`## Extra` after the Steps section) parses successfully instead of failing
with a structural error. -/
theorem c4_recipe_structure_cex :
    legacy.Recipe.from_mdast (.root
      [.heading 1 [.text "R".data], .heading 2 [.text "Ingredients".data],
        .heading 2 [.text "Steps".data], .heading 2 [.text "Extra".data]])
      = pok ⟨"R".data, ⟨[]⟩, ⟨⟩⟩
    ∧ ¬ ∃ e, legacy.Recipe.from_mdast (.root
      [.heading 1 [.text "R".data], .heading 2 [.text "Ingredients".data],
        .heading 2 [.text "Steps".data], .heading 2 [.text "Extra".data]])
      = perr e := by
  constructor
  · rfl
  · rintro ⟨e, he⟩
    have h : (pok (legacy.Recipe.mk "R".data ⟨[]⟩ ⟨⟩) : PE legacy.Recipe)
        = perr e := he
    simp [pok, perr] at h

/-- C4 witness: a wrong second heading text fails with a structural error
naming the offending text node. -/
theorem c4_recipe_structure_witness :
    legacy.Recipe.from_mdast
        (.root [.heading 1 [.text "R".data], .heading 2 [.text "Wrong".data]])
      = perr (MDError.new
          ("expected heading \"Ingredients\", but got \"" ++ String.mk "Wrong".data ++ "\"")
          (some (.text "Wrong".data))) :=
  c4_recipe_structure.2.2.2.2.2.1 "R".data "Wrong".data [] (by decide)

end DownToCook
